import Mathlib

/-!
Verification of the NeoForge resolution pipeline, the version/promotion
resolver and the metadata-inference engine of this repository, as a shallow
embedding in Lean 4.  Definitions are translated from the TypeScript sources
(`NeoForge.resolver.ts`, `VersionUtil.ts`, `NeoForgeMod.struct` part,
`VersionManifestNeoForge` model); helpers whose code lives outside the
provided sources are modelled from the specification and marked as such in
their doc comments.
-/

namespace Nebula

/-! ## String helpers (JS builtin semantics) -/

/-- JS `String.prototype.replace` with a string pattern replaces only the
first occurrence of the pattern; list-level implementation. -/
def listReplaceFirst (pat rep : List Char) : List Char → List Char
  | [] => []
  | c :: rest =>
    if pat.isPrefixOf (c :: rest) then rep ++ (c :: rest).drop pat.length
    else c :: listReplaceFirst pat rep rest

/-- First-occurrence-only string replacement, the semantics of the JS
`version.replace(wildcard, value)` call in `processNeoForgeModule`. -/
def strReplaceFirst (s pat rep : String) : String :=
  ⟨listReplaceFirst pat.data rep.data s.data⟩

/-- Substring membership at the list level, mirroring JS `String.includes`. -/
def listContainsSub (pat : List Char) : List Char → Bool
  | [] => pat.isPrefixOf ([] : List Char)
  | c :: rest => pat.isPrefixOf (c :: rest) || listContainsSub pat rest

/-- JS `String.prototype.includes`. -/
def strIncludes (s pat : String) : Bool :=
  listContainsSub pat.data s.data

/-- JS `String.prototype.startsWith`, by character-list comparison. -/
def strStartsWith (s pat : String) : Bool :=
  pat.data.isPrefixOf s.data

/-- JS `String.prototype.endsWith`, by character-list comparison. -/
def strEndsWith (s pat : String) : Bool :=
  pat.data.reverse.isPrefixOf s.data.reverse

/-- JS `String.prototype.toLowerCase`, mapped over the character list. -/
def strToLower (s : String) : String :=
  ⟨s.data.map Char.toLower⟩

/-- Drop the first `n` characters of a string. -/
def strDrop (s : String) (n : Nat) : String :=
  ⟨s.data.drop n⟩

/-- JS `String.prototype.split` with a one-character separator. -/
def splitOnCharAux (sep : Char) : List Char → List Char → List String
  | [], acc => [⟨acc.reverse⟩]
  | c :: rest, acc =>
    if c = sep then ⟨acc.reverse⟩ :: splitOnCharAux sep rest []
    else splitOnCharAux sep rest (c :: acc)

/-- JS `String.prototype.split` with a one-character separator. -/
def strSplitOnChar (sep : Char) (s : String) : List String :=
  splitOnCharAux sep s.data []

/-- JS `Array.prototype.join` with a string separator. -/
def joinSep (sep : String) : List String → String
  | [] => ""
  | [x] => x
  | x :: y :: rest => x ++ sep ++ joinSep sep (y :: rest)

/-- JS `String.prototype.replace('.', '/')` as applied to a Maven group:
dots become path separators (modelled helper used only by the modelled
`MavenUtil` path layout). -/
def groupToPath (group : String) : String :=
  ⟨group.data.map (fun c => if c = '.' then '/' else c)⟩

/-! ## Data model: generated-file specs and the wildcard substitution
(`NeoForge.resolver.ts`, `configure` and `processNeoForgeModule`) -/

/-- The `GeneratedFile` interface of `NeoForge.resolver.ts`.  Optional
TypeScript fields (`skipIfNotPresent?`, `classpath?`) are `Option Bool`;
a classifier may be `undefined`, hence `Option String` entries. -/
structure GeneratedFile where
  name : String
  group : String
  artifact : String
  version : String
  classifiers : List (Option String)
  skipIfNotPresent : Option Bool
  classpath : Option Bool
deriving Repr, DecidableEq

/-- The wildcard token `WILDCARD_NEOFORM_VERSION` of the resolver. -/
def WILDCARD_NEOFORM_VERSION : String := "$\x7bformVersion\x7d"

/-- The flag token scanned for in the version manifest's game arguments. -/
def NEOFORM_FLAG : String := "--fml.neoFormVersion"

/-- `getNeoFormVersion` of `NeoForge.resolver.ts`: scan the argument list for
the flag token and return the immediately following value; returns the JS
`undefined` (here `none`) if the flag is absent or is the final element. -/
def getNeoFormVersion : List String → Option String
  | [] => none
  | a :: rest => if a = NEOFORM_FLAG then rest.head? else getNeoFormVersion rest

/-- The per-spec wildcard resolution step of `processNeoForgeModule`:
a spec whose version contains the wildcard token gets the token replaced
(first occurrence, JS `replace` semantics); other specs pass unchanged. -/
def resolveGeneratedFile (mcpVersion : String) (f : GeneratedFile) : GeneratedFile :=
  if strIncludes f.version WILDCARD_NEOFORM_VERSION then
    { f with version := strReplaceFirst f.version WILDCARD_NEOFORM_VERSION mcpVersion }
  else f

/-- The wildcard-substitution prelude of `processNeoForgeModule`
(lines guarded by `wildcardsInUse`): discover the NeoForm version from the
manifest's game arguments and rewrite every configured spec. -/
def substituteWildcards (wildcardsInUse : List String) (gameArgs : List String)
    (files : List GeneratedFile) : Except String (List GeneratedFile) :=
  if WILDCARD_NEOFORM_VERSION ∈ wildcardsInUse then
    match getNeoFormVersion gameArgs with
    | none => .error "NeoForm Version not found.. did NeoForge change their format?"
    | some mcpVersion => .ok (files.map (resolveGeneratedFile mcpVersion))
  else .ok files

/-! ## Version/Promotion resolver (`VersionUtil.ts`) -/

/-- Minecraft version triple.  Modelled from the spec: `MinecraftVersion`
(its source is not among the provided files) exposes `getMajor`, `getMinor`
and `getRevision`, the latter possibly undefined. -/
structure MinecraftVersion where
  major : Nat
  minor : Nat
  revision : Option Nat
deriving Repr, DecidableEq

/-- String form of a Minecraft version, as interpolated into promotion keys. -/
def MinecraftVersion.str (v : MinecraftVersion) : String :=
  match v.revision with
  | none => toString v.major ++ "." ++ toString v.minor
  | some r => toString v.major ++ "." ++ toString v.minor ++ "." ++ toString r

/-- The Forge `PromotionsSlim` index: a flat key-to-version map, modelled as
an association list (JSON object lookup). -/
structure PromotionsSlim where
  promos : List (String × String)

/-- JSON-object property lookup used for `index.promos[key]`. -/
def promosLookup (ps : List (String × String)) (key : String) : Option String :=
  (ps.find? (fun kv => kv.1 == key)).map (fun kv => kv.2)

/-- `getPromotedForgeVersion` of `VersionUtil.ts`: exact lookup on
`mc-promotion`, one fallback to `mc-latest`, then a raised error. -/
def getPromotedForgeVersion (index : PromotionsSlim) (minecraftVersion : MinecraftVersion)
    (promotion : String) : Except String String :=
  let wp := strToLower promotion
  match promosLookup index.promos (minecraftVersion.str ++ "-" ++ wp) with
  | some v => .ok v
  | none =>
    match promosLookup index.promos (minecraftVersion.str ++ "-latest") with
    | some v => .ok v
    | none => .error ("No latest version found for Forge " ++ minecraftVersion.str ++ ".")

/-- The NeoForge version index: an ordered list of version strings, latest
further in the array. -/
structure NeoForgeVersionIndex where
  versions : List String

/-- `findNeoForgePromotedVersion` of `VersionUtil.ts`: walk the entries whose
version starts with the working-version token, keeping the last one; when
`stable` is set, entries ending in `-beta` do not overwrite the kept value. -/
def findNeoForgePromotedVersion (index : NeoForgeVersionIndex) (stable : Bool)
    (workingVersion : String) : Option String :=
  (index.versions.filter (fun v => strStartsWith v workingVersion)).foldl
    (fun latestAvailable v =>
      if stable then
        if strEndsWith v "-beta" then latestAvailable else some v
      else some v)
    none

/-- The working-version token built in `getPromotedNeoForgeVersion`:
`minor + '.' + (revision truthy ? revision : 0)`. -/
def neoForgeWorkingVersion (minecraftVersion : MinecraftVersion) : String :=
  toString minecraftVersion.minor ++ "." ++
    toString (match minecraftVersion.revision with
      | none => 0
      | some r => if r = 0 then 0 else r)

/-- `getPromotedNeoForgeVersion` of `VersionUtil.ts`: stability flag is set
exactly when the promotion label lower-cases to `recommended`; one fallback
retry with the flag cleared (the `latest` kind), then a raised error. -/
def getPromotedNeoForgeVersion (index : NeoForgeVersionIndex)
    (minecraftVersion : MinecraftVersion) (promotion : String) : Except String String :=
  let stable := strToLower promotion == "recommended"
  let wv := neoForgeWorkingVersion minecraftVersion
  match findNeoForgePromotedVersion index stable wv with
  | some v => .ok v
  | none =>
    match findNeoForgePromotedVersion index false wv with
    | some v => .ok v
    | none => .error ("No latest version found for Forge " ++ minecraftVersion.str ++ ".")

/-- One entry of the Fabric loader meta, as the fields (`version`, `stable`)
are consumed by `getPromotedFabricVersion`. -/
structure FabricLoaderMeta where
  version : String
  stable : Bool
deriving Repr, DecidableEq

/-- `getPromotedFabricVersion` of `VersionUtil.ts`:
`!stable ? fabricLoaderMeta[0].version : fabricLoaderMeta.find(stable)!.version`.
Indexing an empty array or dereferencing a failed `find` raises a JS
`TypeError`, modelled as an `Except.error`. -/
def getPromotedFabricVersion (meta : List FabricLoaderMeta) (promotion : String) :
    Except String String :=
  let stable := strToLower promotion == "recommended"
  if !stable then
    match meta.head? with
    | some m => .ok m.version
    | none => .error "TypeError: cannot read properties of undefined"
  else
    match meta.find? (fun m => m.stable) with
    | some m => .ok m.version
    | none => .error "TypeError: cannot read properties of undefined"

/-! ## Resolution pipeline: modules, generated-file assembly
(`NeoForge.resolver.ts`, `processWithInstaller` and helpers) -/

/-- The module `type` values used by the resolver (`helios-distribution-types`). -/
inductive ModuleType where
  | library
  | forgeHosted
  | versionManifest
deriving Repr, DecidableEq

/-- A node of the output module tree.  `classpath` and `subModules` are
optional in the TypeScript data model; `artifactUrl` stands for the artifact
descriptor's retrieval URL. -/
inductive Module where
  | mk (id name : String) (type : ModuleType) (classpath : Option Bool)
      (artifactUrl : String) (subModules : Option (List Module))

def Module.id : Module → String
  | .mk i _ _ _ _ _ => i

def Module.name : Module → String
  | .mk _ n _ _ _ _ => n

def Module.type : Module → ModuleType
  | .mk _ _ t _ _ _ => t

def Module.classpath : Module → Option Bool
  | .mk _ _ _ cp _ _ => cp

def Module.artifactUrl : Module → String
  | .mk _ _ _ _ u _ => u

def Module.subModules : Module → Option (List Module)
  | .mk _ _ _ _ _ s => s

mutual

/-- Number of nodes of a given type in a module tree. -/
def countType (t : ModuleType) : Module → Nat
  | .mk _ _ ty _ _ none => if ty = t then 1 else 0
  | .mk _ _ ty _ _ (some subs) =>
    (if ty = t then 1 else 0) + countTypeList t subs

/-- Number of nodes of a given type in a forest of module trees. -/
def countTypeList (t : ModuleType) : List Module → Nat
  | [] => 0
  | m :: rest => countType t m + countTypeList t rest

end

/-- Modelled from the spec: the Maven coordinate constants of
`LibRepoStructure` (its source is not among the provided files); the claims
depend on none of the literal values. -/
def NEOFORGE_GROUP : String := "net.neoforged"

/-- Modelled from the spec: `LibRepoStructure.NEOFORGE_ARTIFACT`. -/
def NEOFORGE_ARTIFACT : String := "neoforge"

/-- Modelled from the spec: `LibRepoStructure.MINECRAFT_GROUP`. -/
def MINECRAFT_GROUP : String := "net.minecraft"

/-- Modelled from the spec: `LibRepoStructure.MINECRAFT_CLIENT_ARTIFACT`. -/
def MINECRAFT_CLIENT_ARTIFACT : String := "client"

/-- Node `path.join` restricted to the plain relative segments the resolver
feeds it: separator insertion. -/
def pathJoin (a b : String) : String := a ++ "/" ++ b

/-- Modelled from the spec: `MavenUtil.mavenComponentsAsNormalizedPath`
(source not among the provided files) lays artifacts out Maven-style,
`group/artifact/version/artifact-version[-classifier].jar`. -/
def mavenComponentsAsNormalizedPath (group artifact version : String)
    (classifier : Option String) : String :=
  (groupToPath group) ++ "/" ++ artifact ++ "/" ++ version ++ "/" ++
    artifact ++ "-" ++ version ++
    (match classifier with
     | some c => "-" ++ c
     | none => "") ++ ".jar"

/-- Modelled from the spec: `MavenUtil.mavenComponentsToIdentifier`
(source not among the provided files), the coordinate-derived module id
`group:artifact:version[:classifier]`. -/
def mavenComponentsToIdentifier (group artifact version : String)
    (classifier : Option String) : String :=
  group ++ ":" ++ artifact ++ ":" ++ version ++
    (match classifier with
     | some c => ":" ++ c
     | none => "")

/-- Modelled from the spec: `LibRepoStructure.getArtifactUrlByComponents`,
the retrieval URL under the configured base URL. -/
def artifactUrlByComponents (baseUrl group artifact version : String)
    (classifier : Option String) : String :=
  baseUrl ++ "/" ++ mavenComponentsAsNormalizedPath group artifact version classifier

/-- The probe path of one classifier variant of a generated-file spec. -/
def classifierPath (libDir : String) (entry : GeneratedFile)
    (classifier : Option String) : String :=
  pathJoin libDir
    (mavenComponentsAsNormalizedPath entry.group entry.artifact entry.version classifier)

/-- The classifier loop of `processNeoForgeModule`: walk the declared
classifier variants in order, accumulating every probed path in
`targetLocations`; the loop breaks at the first variant whose path exists.
Returns the probed paths and the accepted classifier, if any. -/
def probeClassifiers (fsExists : String → Bool) (libDir : String)
    (entry : GeneratedFile) : List (Option String) → List String × Option (Option String)
  | [] => ([], none)
  | c :: rest =>
    let p := classifierPath libDir entry c
    if fsExists p then ([p], some c)
    else
      let r := probeClassifiers fsExists libDir entry rest
      (p :: r.1, r.2)

/-- The module record pushed for a located generated file: coordinate id
built from the accepted classifier, library type, classpath defaulted to
true, empty `subModules`. -/
def mkGeneratedModule (baseUrl : String) (entry : GeneratedFile)
    (classifier : Option String) : Module :=
  .mk (mavenComponentsToIdentifier entry.group entry.artifact entry.version classifier)
    ("Minecraft NeoForge (" ++ entry.name ++ ")")
    .library
    (some (entry.classpath.getD true))
    (artifactUrlByComponents baseUrl entry.group entry.artifact entry.version classifier)
    (some [])

/-- The per-spec body of the generated-file loop of `processNeoForgeModule`:
locate each spec among its classifier variants, push its module on a hit,
skip tolerant specs, and otherwise raise the error that joins every probed
path with a newline-tab separator. -/
def processGeneratedFiles (fsExists : String → Bool) (baseUrl libDir : String) :
    List GeneratedFile → Except String (List Module)
  | [] => .ok []
  | entry :: rest =>
    let pr := probeClassifiers fsExists libDir entry entry.classifiers
    match pr.2 with
    | some c =>
      match processGeneratedFiles fsExists baseUrl libDir rest with
      | .ok ms => .ok (mkGeneratedModule baseUrl entry c :: ms)
      | .error e => .error e
    | none =>
      if entry.skipIfNotPresent.getD false then
        processGeneratedFiles fsExists baseUrl libDir rest
      else
        .error ("Required file " ++ entry.name ++
          " not found at any expected location:\n\t" ++
          joinSep "\n\t" pr.1)

/-- Tail of `processNeoForgeModule`: `mdls.shift()` promotes the first
assembled module, its type is overwritten to the hosted-loader type and the
remaining modules become its submodules.  `shift` on an empty array yields
the JS `undefined`, so the subsequent property writes raise a `TypeError`. -/
def promoteFirstModule : List Module → Except String Module
  | [] => .error "TypeError: cannot set properties of undefined"
  | .mk i n _ cp u _ :: rest => .ok (.mk i n .forgeHosted cp u (some rest))

/-- `processNeoForgeModule` of `NeoForge.resolver.ts`: wildcard substitution
from the manifest's game arguments, the generated-file loop, then promotion
of the first assembled module. -/
def processNeoForgeModule (fsExists : String → Bool) (baseUrl : String)
    (wildcardsInUse : List String) (files : List GeneratedFile)
    (gameArgs : List String) (installerOutputDir : String) : Except String Module :=
  let libDir := pathJoin installerOutputDir "libraries"
  match substituteWildcards wildcardsInUse gameArgs files with
  | .error e => .error e
  | .ok resolved =>
    match processGeneratedFiles fsExists baseUrl libDir resolved with
    | .error e => .error e
    | .ok mdls => promoteFirstModule mdls

/-- `configure` of `NeoForge.resolver.ts`: the five generated-file specs;
the two Minecraft client coordinates carry the NeoForm wildcard in their
version. -/
def configureGeneratedFiles (minecraftVersion : MinecraftVersion)
    (neoforgeVersion : String) : List GeneratedFile :=
  let neoFormUnifiedVersion := minecraftVersion.str ++ "-" ++ WILDCARD_NEOFORM_VERSION
  [ { name := "universal jar", group := NEOFORGE_GROUP, artifact := NEOFORGE_ARTIFACT,
      version := neoforgeVersion, classifiers := [some "universal"],
      skipIfNotPresent := none, classpath := some false },
    { name := "client jar", group := NEOFORGE_GROUP, artifact := NEOFORGE_ARTIFACT,
      version := neoforgeVersion, classifiers := [some "client"],
      skipIfNotPresent := none, classpath := some false },
    { name := "client extra", group := MINECRAFT_GROUP, artifact := MINECRAFT_CLIENT_ARTIFACT,
      version := neoFormUnifiedVersion, classifiers := [some "extra"],
      skipIfNotPresent := none, classpath := some false },
    { name := "client slim", group := MINECRAFT_GROUP, artifact := MINECRAFT_CLIENT_ARTIFACT,
      version := neoFormUnifiedVersion, classifiers := [some "slim"],
      skipIfNotPresent := none, classpath := some false },
    { name := "client srg", group := MINECRAFT_GROUP, artifact := MINECRAFT_CLIENT_ARTIFACT,
      version := neoFormUnifiedVersion, classifiers := [some "srg"],
      skipIfNotPresent := none, classpath := some false } ]

/-- The `wildcardsInUse` list set in `configure`. -/
def configuredWildcards : List String := [WILDCARD_NEOFORM_VERSION]

/-! ## Version manifest model and library assembly -/

/-- The `downloads.artifact` descriptor of a manifest library entry. -/
structure ManifestLibraryArtifact where
  path : String
  url : String
  sha1 : String
  size : Nat
deriving Repr, DecidableEq

/-- The `downloads` object of a manifest library entry. -/
structure ManifestLibraryDownloads where
  artifact : ManifestLibraryArtifact
deriving Repr, DecidableEq

/-- One entry of the manifest's `libraries` array
(`VersionManifestNeoForge` model). -/
structure ManifestLibrary where
  name : String
  downloads : ManifestLibraryDownloads
deriving Repr, DecidableEq

/-- `VersionManifestNeoForge`: the fields the pipeline consumes
(`arguments.game` and `libraries`). -/
structure VersionManifestNeoForge where
  id : String
  gameArgs : List String
  libraries : List ManifestLibrary
deriving Repr, DecidableEq

/-- Modelled from the spec: `MavenUtil.getMavenComponents` splits the
Maven identifier `group:artifact:version[:classifier]` into components;
only the artifact component feeds an output the claims mention (the display
name of a library module). -/
def mavenIdentifierArtifact (idStr : String) : String :=
  ((strSplitOnChar ':' idStr).drop 1).headD ""

/-- The module record pushed for one manifest-declared library. -/
def mkLibraryModule (baseUrl : String) (entry : ManifestLibrary) : Module :=
  .mk entry.name
    ("Minecraft NeoForge (" ++ mavenIdentifierArtifact entry.name ++ ")")
    .library
    none
    (baseUrl ++ "/" ++ entry.downloads.artifact.path)
    none

/-- `processLibraries` of `NeoForge.resolver.ts`: entries without a download
URL are skipped; a declared entry whose local path is missing raises; the
rest are registered in manifest order as library modules. -/
def processLibraries (fsExists : String → Bool) (baseUrl libDir : String) :
    List ManifestLibrary → Except String (List Module)
  | [] => .ok []
  | entry :: rest =>
    if entry.downloads.artifact.url = "" then
      processLibraries fsExists baseUrl libDir rest
    else if fsExists (pathJoin libDir entry.downloads.artifact.path) then
      match processLibraries fsExists baseUrl libDir rest with
      | .ok ms => .ok (mkLibraryModule baseUrl entry :: ms)
      | .error e => .error e
    else .error ("Expected library " ++ entry.name ++ " not found!")

/-! ## Installer verification (`runInstaller`, `verifyInstallerRan`) -/

/-- Log severity of the resolver's logging collaborator. -/
inductive LogLevel where
  | info
  | error
deriving Repr, DecidableEq

/-- Observable pipeline effects of the installer phase. -/
inductive PipelineAction where
  | logLine (lvl : LogLevel) (msg : String)
  | removeDir (path : String)
  | raiseError (msg : String)
deriving Repr, DecidableEq

/-- `getVersionManifestName` of `NeoForge.resolver.ts`. -/
def getVersionManifestName (neoforgeVersion : String) : String :=
  "neoforge-" ++ neoforgeVersion

/-- `getVersionManifestPath`: the deterministic manifest location
`<outputDir>/versions/<name>/<name>.json` derived from the loader version. -/
def getVersionManifestPath (neoforgeVersion installerOutputDir : String) : String :=
  pathJoin (pathJoin (pathJoin installerOutputDir "versions")
      (getVersionManifestName neoforgeVersion))
    (getVersionManifestName neoforgeVersion ++ ".json")

/-- `runInstaller`: the close handler logs the exit code (info on zero,
error otherwise) and always resolves the promise; no effect other than the
log line is produced, whatever the exit code. -/
def runInstallerActions (exitCode : Int) : List PipelineAction :=
  if exitCode = 0 then [.logLine .info "Installer exited with code"]
  else [.logLine .error "Installer exited with code"]

/-- `verifyInstallerRan`: when the version manifest is absent at its
deterministic path, the cache directory is removed and then the hard error
is raised; otherwise nothing happens. -/
def verifyInstallerRanActions (fsExists : String → Bool)
    (neoforgeVersion installerOutputDir : String) : List PipelineAction :=
  if fsExists (getVersionManifestPath neoforgeVersion installerOutputDir) then []
  else [.removeDir installerOutputDir, .raiseError "NeoForge installation failed."]

/-- The installer phase of `processWithInstaller`: run the installer, then
verify its output structurally. -/
def installerPhaseActions (fsExists : String → Bool) (exitCode : Int)
    (neoforgeVersion installerOutputDir : String) : List PipelineAction :=
  runInstallerActions exitCode ++
    verifyInstallerRanActions fsExists neoforgeVersion installerOutputDir

/-- Whether a list of pipeline actions contains a raised error. -/
def actionsAbort (actions : List PipelineAction) : Bool :=
  actions.any (fun a =>
    match a with
    | .raiseError _ => true
    | _ => false)

/-! ## Module tree assembly (`processWithInstaller`) -/

/-- The module built by `processVersionManifest` for the version manifest
itself: id is the loader version, type `version-manifest`, retrieval URL
under the version repository layout (`VersionRepoStructure` modelled from
the spec: its source is not among the provided files). -/
def mkVersionManifestModule (neoforgeVersion baseUrl : String) : Module :=
  .mk neoforgeVersion
    "Minecraft NeoForge (version.json)"
    .versionManifest
    none
    (baseUrl ++ "/versions/" ++ getVersionManifestName neoforgeVersion ++ "/" ++
      getVersionManifestName neoforgeVersion ++ ".json")
    none

/-- `forgeModule.subModules?.unshift(manifestModule)` followed by
`forgeModule.subModules = forgeModule.subModules?.concat(libs)`: with
submodules present, the manifest module is prepended and the libraries
appended; with none, both optional-chained operations leave it absent. -/
def attachSubmodules (m vm : Module) (libs : List Module) : Module :=
  match m with
  | .mk i n t cp u none => .mk i n t cp u none
  | .mk i n t cp u (some subs) => .mk i n t cp u (some (vm :: subs ++ libs))

/-- The assembly tail of `processWithInstaller` (after installer
verification): process the generated NeoForge files, prepend the version
manifest module, append the manifest-declared libraries. -/
def assembleModuleTree (fsExists : String → Bool) (baseUrl : String)
    (minecraftVersion : MinecraftVersion) (neoforgeVersion : String)
    (manifest : VersionManifestNeoForge) (installerOutDir : String) :
    Except String Module :=
  let vm := mkVersionManifestModule neoforgeVersion baseUrl
  match processNeoForgeModule fsExists baseUrl configuredWildcards
      (configureGeneratedFiles minecraftVersion neoforgeVersion)
      manifest.gameArgs installerOutDir with
  | .error e => .error e
  | .ok forgeModule =>
    match processLibraries fsExists baseUrl (pathJoin installerOutDir "libraries")
        manifest.libraries with
    | .error e => .error e
    | .ok libs => .ok (attachSubmodules forgeModule vm libs)

/-! ## Metadata inference engine
(`NeoForgeModStructure.processZip`; the `BaseForgeModStructure` helpers it
calls are not among the provided sources and are modelled from the spec) -/

/-- One `[[mods]]` entry of a `neoforge.mods.toml` declaration. -/
structure ModEntry where
  modId : String
  version : String
  displayName : String
  description : String
deriving Repr, DecidableEq

/-- The parsed `neoforge.mods.toml` declaration (`ModsToml` model). -/
structure ModsToml where
  modLoader : String
  loaderVersion : String
  mods : List ModEntry
deriving Repr, DecidableEq

/-- Modelled from the spec: `BaseForgeModStructure.EXAMPLE_MOD_ID`
(source not among the provided files), the literal example/template id
marker used as the identifier placeholder sentinel. -/
def EXAMPLE_MOD_ID : String := "examplemod"

/-- The version placeholder sentinel compared against literally in
`processZip`. -/
def JAR_VERSION_PLACEHOLDER : String := "$\x7bfile.jarVersion\x7d"

/-- Modelled from the spec: `BaseForgeModStructure.discernResult`
(source not among the provided files) prefers the static-analysis
(Claritas) hint when it is non-null and otherwise falls back to the crude
filename-derived value. -/
def discernResult (claritasId : Option String) (crudeValue : String) : String :=
  match claritasId with
  | some c => c
  | none => crudeValue

/-- Modelled from the spec: `ForgeModStructure113.IMPLEMENTATION_VERSION_REGEX`
(source not among the provided files), the fixed implementation-version key
pattern over one line of the embedded build manifest; the captured value is
the remainder of the line after the key. -/
def implementationVersionMatch (line : String) : Option String :=
  if strStartsWith line "Implementation-Version: " then
    some (strDrop line "Implementation-Version: ".length)
  else none

/-- The version-recovery loop of `processZip`: scan every line of the
embedded `META-INF/MANIFEST.MF` (when readable), overwriting the candidate
version at each line matching the implementation-version pattern; the crude
filename-derived guess is both the starting value and the fallback when the
manifest is unreadable. -/
def inferVersion (manifestMF : Option String) (crudeVersion : String) : String :=
  match manifestMF with
  | none => crudeVersion
  | some m =>
    (strSplitOnChar '\n' m).foldl
      (fun version line =>
        match implementationVersionMatch line with
        | some v => v
        | none => version)
      crudeVersion

/-- The per-entry placeholder rewriting of `processZip`: a sentinel mod id is
replaced by the discerned identity (hint over lowercased crude name) and the
display name is overwritten with the crude name; a sentinel version is
replaced by the recovered implementation version. -/
def processEntry (claritasId : Option String) (crudeName crudeVersion : String)
    (manifestMF : Option String) (entry : ModEntry) : ModEntry :=
  let e1 :=
    if entry.modId = EXAMPLE_MOD_ID then
      { entry with
        modId := discernResult claritasId (strToLower crudeName),
        displayName := crudeName }
    else entry
  if e1.version = JAR_VERSION_PLACEHOLDER then
    { e1 with version := inferVersion manifestMF crudeVersion }
  else e1

/-- `processZip` of the NeoForge mod structure: with a parsed declaration,
every mod entry is rewritten in place; with none (missing or malformed
`neoforge.mods.toml`), a full default record is synthesized.  The crude
filename inference (`attemptCrudeInference`, source not among the provided
files) is modelled from the spec as the `crudeName`/`crudeVersion` inputs. -/
def processZip (parsedToml : Option ModsToml) (claritasId : Option String)
    (crudeName crudeVersion : String) (manifestMF : Option String) : ModsToml :=
  match parsedToml with
  | some x => { x with mods := x.mods.map (processEntry claritasId crudeName crudeVersion manifestMF) }
  | none =>
    { modLoader := "javafml", loaderVersion := "",
      mods := [{ modId := discernResult claritasId (strToLower crudeName),
                 version := crudeVersion,
                 displayName := crudeName,
                 description := "" }] }

/-! ## Concrete inputs used by the witnesses -/

/-- A filesystem on which every probed path exists. -/
def demoExistsAll : String → Bool := fun _ => true

/-- A filesystem on which no probed path exists. -/
def demoNoneExists : String → Bool := fun _ => false

/-- Minecraft 1.20.1. -/
def demoMc : MinecraftVersion := ⟨1, 20, some 1⟩

/-- The client-extra generated-file spec for Minecraft 1.20.1, carrying the
NeoForm wildcard, exactly as produced by `configure`. -/
def demoClientExtra : GeneratedFile :=
  { name := "client extra", group := MINECRAFT_GROUP, artifact := MINECRAFT_CLIENT_ARTIFACT,
    version := "1.20.1-$\x7bformVersion\x7d", classifiers := [some "extra"],
    skipIfNotPresent := none, classpath := some false }

/-- A spec with the two classifier variants of the spec's worked example. -/
def demoC2Entry : GeneratedFile :=
  { name := "universal jar", group := NEOFORGE_GROUP, artifact := NEOFORGE_ARTIFACT,
    version := "20.4.237", classifiers := [some "universal", some "client"],
    skipIfNotPresent := none, classpath := some false }

/-- A filesystem on which only the `client` variant of `demoC2Entry` exists. -/
def demoC2Exists : String → Bool :=
  fun p => p == classifierPath "out/libraries" demoC2Entry (some "client")

/-- A manifest-declared library entry with a download descriptor. -/
def demoManifestLib : ManifestLibrary :=
  { name := "org.ow2.asm:asm:9.7",
    downloads := { artifact :=
      { path := "org/ow2/asm/asm/9.7/asm-9.7.jar",
        url := "https://maven.neoforged.net/org/ow2/asm/asm/9.7/asm-9.7.jar",
        sha1 := "da99f5f4a9f6d6d4e07b3a2a1b8b8b3a1234abcd", size := 1 } } }

/-- A version manifest whose game arguments carry the NeoForm flag pair. -/
def demoManifest : VersionManifestNeoForge :=
  { id := "neoforge-20.4.237",
    gameArgs := [NEOFORM_FLAG, "20231019.002401"],
    libraries := [demoManifestLib] }

/-- The module tree assembled on `demoExistsAll` from `demoManifest`. -/
def demoRoot : Module :=
  match assembleModuleTree demoExistsAll "https://base" demoMc "20.4.237" demoManifest "out" with
  | .ok m => m
  | .error _ => .mk "" "" .library none "" none

/-- A mod entry declaring the identifier placeholder sentinel. -/
def demoModEntry : ModEntry :=
  { modId := EXAMPLE_MOD_ID, version := "1.0", displayName := "Example Mod", description := "" }

/-- A mod entry declaring the version placeholder sentinel. -/
def demoVersionEntry : ModEntry :=
  { modId := "coolmod", version := JAR_VERSION_PLACEHOLDER,
    displayName := "Cool Mod", description := "" }

/-- An embedded build manifest with a single implementation-version line. -/
def demoManifestMF : String :=
  "Manifest-Version: 1.0\nImplementation-Version: 3.2.1"

/-- An embedded build manifest with two implementation-version lines. -/
def demoManifestMFTwo : String :=
  "Implementation-Version: 1.1.1\nImplementation-Version: 2.2.2"

/-! ## Helper lemmas -/

theorem getNeoFormVersion_first_hit (l₁ l₂ : List String) (v : String)
    (h : NEOFORM_FLAG ∉ l₁) :
    getNeoFormVersion (l₁ ++ NEOFORM_FLAG :: v :: l₂) = some v := by
  induction l₁ with
  | nil => simp [getNeoFormVersion]
  | cons a t ih =>
    have ha : ¬ a = NEOFORM_FLAG := fun heq => h (heq ▸ List.mem_cons_self a t)
    simp only [List.cons_append, getNeoFormVersion, if_neg ha]
    exact ih (fun hm => h (List.mem_cons_of_mem a hm))

/-! ### C1: wildcard substitution -/

/-- C1: for a version manifest whose game-argument list contains the flag
token `--fml.neoFormVersion` followed by a value `v` (first occurrence),
wildcard substitution succeeds and rewrites exactly the specs whose version
contains the wildcard token, replacing the token with `v`, leaving the other
specs unchanged. -/
theorem c1_wildcard_substitution (l₁ l₂ : List String) (v : String)
    (files : List GeneratedFile) (h : NEOFORM_FLAG ∉ l₁) :
    substituteWildcards configuredWildcards (l₁ ++ NEOFORM_FLAG :: v :: l₂) files =
      .ok (files.map (resolveGeneratedFile v)) ∧
    (∀ f ∈ files, strIncludes f.version WILDCARD_NEOFORM_VERSION = true →
      resolveGeneratedFile v f =
        { f with version := strReplaceFirst f.version WILDCARD_NEOFORM_VERSION v }) ∧
    (∀ f ∈ files, strIncludes f.version WILDCARD_NEOFORM_VERSION = false →
      resolveGeneratedFile v f = f) := by
  refine ⟨?_, ?_, ?_⟩
  · simp [substituteWildcards, configuredWildcards,
      getNeoFormVersion_first_hit l₁ l₂ v h]
  · intro f _ hf
    simp [resolveGeneratedFile, hf]
  · intro f _ hf
    simp [resolveGeneratedFile, hf]

/-- C1 witness: with arguments `["--fml.neoFormVersion","20231019.002401"]`
and the client-extra spec version `1.20.1-` followed by the wildcard, the
resolved version is `1.20.1-20231019.002401`. -/
theorem c1_wildcard_substitution_witness :
    substituteWildcards configuredWildcards [NEOFORM_FLAG, "20231019.002401"]
        [demoClientExtra] =
      .ok [{ demoClientExtra with version := "1.20.1-20231019.002401" }] := by
  have h := (c1_wildcard_substitution [] [] "20231019.002401" [demoClientExtra]
    (by simp)).1
  have h2 : [demoClientExtra].map (resolveGeneratedFile "20231019.002401") =
      [{ demoClientExtra with version := "1.20.1-20231019.002401" }] := by decide
  rw [h2] at h
  exact h

/-! ### C7: NeoForge promoted-version selection -/

theorem getLast?_cons_or {α : Type} (a : α) (l : List α) (x : Option α) :
    (a :: l).getLast?.or x = l.getLast?.or (some a) := by
  cases l with
  | nil => simp
  | cons b m =>
    rw [List.getLast?_cons_cons]
    have hne : (b :: m).getLast?.isSome := by
      rw [List.getLast?_isSome]
      simp
    obtain ⟨y, hy⟩ := Option.isSome_iff_exists.mp hne
    rw [hy]
    simp [Option.or]

theorem foldl_keep_last (p : String → Bool) (l : List String) :
    ∀ init : Option String,
      l.foldl (fun acc v => if p v then some v else acc) init =
        ((l.filter p).getLast?).or init := by
  induction l with
  | nil => intro init; simp
  | cons a t ih =>
    intro init
    by_cases hp : p a
    · simp only [List.foldl_cons, if_pos hp, List.filter_cons_of_pos hp, ih]
      exact (getLast?_cons_or a (t.filter p) init).symm ▸ rfl
    · have hp' : p a = false := by simpa using hp
      simp only [List.foldl_cons, if_neg hp, List.filter_cons_of_neg hp, ih]

/-- C7: selection over the NeoForge version index keeps the last entry (in
index order) whose version starts with the working-version token; entries
ending in `-beta` are filtered out exactly when the promotion label
lower-cases to `recommended` (the stability flag passed by
`getPromotedNeoForgeVersion`), and are eligible otherwise. -/
theorem c7_neoforge_selection (index : NeoForgeVersionIndex) (wv : String)
    (promotion : String) :
    (strToLower promotion = "recommended" →
      findNeoForgePromotedVersion index (strToLower promotion == "recommended") wv =
        (index.versions.filter
          (fun v => strStartsWith v wv && !strEndsWith v "-beta")).getLast?) ∧
    (strToLower promotion ≠ "recommended" →
      findNeoForgePromotedVersion index (strToLower promotion == "recommended") wv =
        (index.versions.filter (fun v => strStartsWith v wv)).getLast?) := by
  constructor
  · intro hrec
    have hflag : (strToLower promotion == "recommended") = true := by
      simp [hrec]
    unfold findNeoForgePromotedVersion
    rw [hflag]
    have hfun : (fun (latestAvailable : Option String) (v : String) =>
        if (true : Bool) then
          if strEndsWith v "-beta" then latestAvailable else some v
        else some v) =
        (fun acc v => if !strEndsWith v "-beta" then some v else acc) := by
      funext acc v
      cases hb : strEndsWith v "-beta" <;> simp [hb]
    rw [hfun, foldl_keep_last (fun v => !strEndsWith v "-beta")]
    rw [Option.or_none, List.filter_filter]
    have hcomm : (fun v => !strEndsWith v "-beta" && strStartsWith v wv) =
        (fun v => strStartsWith v wv && !strEndsWith v "-beta") := by
      funext v
      exact Bool.and_comm _ _
    rw [hcomm]
  · intro hrec
    have hflag : (strToLower promotion == "recommended") = false := by
      simpa using hrec
    unfold findNeoForgePromotedVersion
    rw [hflag]
    have hfun : (fun (latestAvailable : Option String) (v : String) =>
        if (false : Bool) then
          if strEndsWith v "-beta" then latestAvailable else some v
        else some v) =
        (fun acc v => if (true : Bool) then some v else acc) := by
      funext acc v
      simp
    rw [hfun, foldl_keep_last (fun _ => true)]
    simp

/-- C7 witness: on the index `["20.4.200", "20.4.237-beta"]` with working
version `20.4`, the `recommended` kind selects `20.4.200` while the
`latest` kind selects `20.4.237-beta`. -/
theorem c7_neoforge_selection_witness :
    findNeoForgePromotedVersion ⟨["20.4.200", "20.4.237-beta"]⟩
        (strToLower "recommended" == "recommended") "20.4" = some "20.4.200" ∧
    findNeoForgePromotedVersion ⟨["20.4.200", "20.4.237-beta"]⟩
        (strToLower "latest" == "recommended") "20.4" = some "20.4.237-beta" := by
  constructor
  · rw [(c7_neoforge_selection ⟨["20.4.200", "20.4.237-beta"]⟩ "20.4" "recommended").1
      (by decide)]
    decide
  · rw [(c7_neoforge_selection ⟨["20.4.200", "20.4.237-beta"]⟩ "20.4" "latest").2
      (by decide)]
    decide

/-! ### C6: promotion fallback (corrected: the Fabric resolver has none) -/

/-- C6 counterexample: the Fabric promotion resolver does not fall back to
the `latest` kind.  On a loader meta holding a single non-stable entry
`0.15.0`, requesting `recommended` raises (a JS `TypeError`) although the
`latest` lookup of the very same meta succeeds with `0.15.0`, which the
claimed fallback would have returned. -/
theorem c6_fabric_counterexample :
    getPromotedFabricVersion [⟨"0.15.0", false⟩] "recommended" =
      .error "TypeError: cannot read properties of undefined" ∧
    getPromotedFabricVersion [⟨"0.15.0", false⟩] "latest" = .ok "0.15.0" ∧
    getPromotedFabricVersion [⟨"0.15.0", false⟩] "recommended" ≠ .ok "0.15.0" := by
  refine ⟨rfl, rfl, ?_⟩
  intro h
  exact Except.noConfusion h

/-- C6 amended: the Forge and NeoForge promotion resolvers fall back exactly
once to the `latest` promotion kind when the requested lookup yields
nothing, returning the latest value on success and raising when the
fallback also yields nothing; the Fabric resolver performs no such
fallback: with `recommended` requested and no stable entry present it
raises even when entries (hence a latest value) exist. -/
theorem c6_promotion_fallback (forgeIdx : PromotionsSlim)
    (nfIdx : NeoForgeVersionIndex) (mc : MinecraftVersion) (promotion : String)
    (fabricMeta : List FabricLoaderMeta) :
    (promosLookup forgeIdx.promos (mc.str ++ "-" ++ strToLower promotion) = none →
      (∀ v, promosLookup forgeIdx.promos (mc.str ++ "-latest") = some v →
        getPromotedForgeVersion forgeIdx mc promotion = .ok v) ∧
      (promosLookup forgeIdx.promos (mc.str ++ "-latest") = none →
        getPromotedForgeVersion forgeIdx mc promotion =
          .error ("No latest version found for Forge " ++ mc.str ++ "."))) ∧
    (findNeoForgePromotedVersion nfIdx (strToLower promotion == "recommended")
        (neoForgeWorkingVersion mc) = none →
      (∀ v, findNeoForgePromotedVersion nfIdx false (neoForgeWorkingVersion mc) = some v →
        getPromotedNeoForgeVersion nfIdx mc promotion = .ok v) ∧
      (findNeoForgePromotedVersion nfIdx false (neoForgeWorkingVersion mc) = none →
        getPromotedNeoForgeVersion nfIdx mc promotion =
          .error ("No latest version found for Forge " ++ mc.str ++ "."))) ∧
    (strToLower promotion = "recommended" →
      (∀ m ∈ fabricMeta, m.stable = false) →
      getPromotedFabricVersion fabricMeta promotion =
        .error "TypeError: cannot read properties of undefined") := by
  refine ⟨?_, ?_, ?_⟩
  · intro hmiss
    constructor
    · intro v hv
      simp only [getPromotedForgeVersion]
      rw [hmiss, hv]
    · intro hnone
      simp only [getPromotedForgeVersion]
      rw [hmiss, hnone]
  · intro hmiss
    constructor
    · intro v hv
      simp only [getPromotedNeoForgeVersion]
      rw [hmiss, hv]
    · intro hnone
      simp only [getPromotedNeoForgeVersion]
      rw [hmiss, hnone]
  · intro hrec hall
    have hflag : (strToLower promotion == "recommended") = true := by
      simp [hrec]
    have hfind : fabricMeta.find? (fun m => m.stable) = none := by
      rw [List.find?_eq_none]
      intro m hm
      simp [hall m hm]
    simp only [getPromotedFabricVersion]
    rw [hflag, hfind]
    simp

/-- C6 witness: on empty Forge and NeoForge indexes the fallback itself
misses and both resolvers raise; the Fabric resolver raises on the
non-stable singleton meta with `recommended` requested. -/
theorem c6_promotion_fallback_witness :
    getPromotedForgeVersion ⟨[]⟩ demoMc "recommended" =
      .error "No latest version found for Forge 1.20.1." ∧
    getPromotedNeoForgeVersion ⟨[]⟩ demoMc "recommended" =
      .error "No latest version found for Forge 1.20.1." ∧
    getPromotedFabricVersion [⟨"0.15.0", false⟩] "recommended" =
      .error "TypeError: cannot read properties of undefined" := by
  have h := c6_promotion_fallback ⟨[]⟩ ⟨[]⟩ demoMc "recommended" [⟨"0.15.0", false⟩]
  refine ⟨?_, ?_, ?_⟩
  · have h1 := (h.1 (by decide)).2 (by decide)
    have hs : demoMc.str = "1.20.1" := by decide
    rw [hs] at h1
    exact h1
  · have h2 := (h.2.1 (by decide)).2 (by decide)
    have hs : demoMc.str = "1.20.1" := by decide
    rw [hs] at h2
    exact h2
  · exact h.2.2 (by decide) (by decide)

/-! ### C2 and C3: classifier variant probing -/

theorem probeClassifiers_first_hit (fsExists : String → Bool) (libDir : String)
    (entry : GeneratedFile) (c : Option String) (cs₂ : List (Option String))
    (cs₁ : List (Option String))
    (hmiss : ∀ c' ∈ cs₁, fsExists (classifierPath libDir entry c') = false)
    (hhit : fsExists (classifierPath libDir entry c) = true) :
    probeClassifiers fsExists libDir entry (cs₁ ++ c :: cs₂) =
      (cs₁.map (classifierPath libDir entry) ++ [classifierPath libDir entry c],
        some c) := by
  induction cs₁ with
  | nil => simp [probeClassifiers, hhit]
  | cons a t ih =>
    have ha : fsExists (classifierPath libDir entry a) = false :=
      hmiss a (List.mem_cons_self a t)
    have ih' := ih (fun c' hc' => hmiss c' (List.mem_cons_of_mem a hc'))
    simp only [List.cons_append, probeClassifiers, ha, Bool.false_eq_true, if_false,
      List.map_cons]
    rw [List.append_eq, ih']

theorem probeClassifiers_all_missing (fsExists : String → Bool) (libDir : String)
    (entry : GeneratedFile) (cs : List (Option String))
    (hmiss : ∀ c ∈ cs, fsExists (classifierPath libDir entry c) = false) :
    probeClassifiers fsExists libDir entry cs =
      (cs.map (classifierPath libDir entry), none) := by
  induction cs with
  | nil => simp [probeClassifiers]
  | cons a t ih =>
    have ha : fsExists (classifierPath libDir entry a) = false :=
      hmiss a (List.mem_cons_self a t)
    have ih' := ih (fun c hc => hmiss c (List.mem_cons_of_mem a hc))
    simp only [probeClassifiers, ha, Bool.false_eq_true, if_false, ih', List.map_cons]

/-- C2: the classifier variants of a generated-file spec are probed in
declared order and the loop stops at the first variant whose path exists:
the probed locations are exactly the missing ones before the hit plus the
hit itself (no later variant is attempted), the spec is assembled without
any error, and the assembled module's id is built from the accepted
classifier. -/
theorem c2_classifier_first_hit (fsExists : String → Bool) (baseUrl libDir : String)
    (entry : GeneratedFile) (cs₁ cs₂ : List (Option String)) (c : Option String)
    (hcls : entry.classifiers = cs₁ ++ c :: cs₂)
    (hmiss : ∀ c' ∈ cs₁, fsExists (classifierPath libDir entry c') = false)
    (hhit : fsExists (classifierPath libDir entry c) = true) :
    probeClassifiers fsExists libDir entry entry.classifiers =
      (cs₁.map (classifierPath libDir entry) ++ [classifierPath libDir entry c],
        some c) ∧
    (∀ rest ms, processGeneratedFiles fsExists baseUrl libDir rest = .ok ms →
      processGeneratedFiles fsExists baseUrl libDir (entry :: rest) =
        .ok (mkGeneratedModule baseUrl entry c :: ms)) ∧
    (mkGeneratedModule baseUrl entry c).id =
      mavenComponentsToIdentifier entry.group entry.artifact entry.version c := by
  have hprobe : probeClassifiers fsExists libDir entry entry.classifiers =
      (cs₁.map (classifierPath libDir entry) ++ [classifierPath libDir entry c],
        some c) := by
    rw [hcls]
    exact probeClassifiers_first_hit fsExists libDir entry c cs₂ cs₁ hmiss hhit
  refine ⟨hprobe, ?_, rfl⟩
  intro rest ms hms
  simp only [processGeneratedFiles, hprobe, hms]

/-- C2 witness: with classifiers `universal` then `client` and only the
`client` path existing, probing stops after the two paths, the spec is
assembled as the `client` module, and no error is produced. -/
theorem c2_classifier_first_hit_witness :
    probeClassifiers demoC2Exists "out/libraries" demoC2Entry demoC2Entry.classifiers =
      ([classifierPath "out/libraries" demoC2Entry (some "universal"),
        classifierPath "out/libraries" demoC2Entry (some "client")],
        some (some "client")) ∧
    processGeneratedFiles demoC2Exists "https://base" "out/libraries" [demoC2Entry] =
      .ok [mkGeneratedModule "https://base" demoC2Entry (some "client")] := by
  have h := c2_classifier_first_hit demoC2Exists "https://base" "out/libraries"
    demoC2Entry [some "universal"] [] (some "client") rfl (by decide) (by decide)
  exact ⟨h.1, h.2.1 [] [] rfl⟩

/-- C3: when no classifier variant of a non-tolerant generated-file spec
exists, assembly fails with the error whose message joins every probed
path, in the declared classifier order. -/
theorem c3_missing_spec_error (fsExists : String → Bool) (baseUrl libDir : String)
    (entry : GeneratedFile) (rest : List GeneratedFile)
    (hmiss : ∀ c ∈ entry.classifiers, fsExists (classifierPath libDir entry c) = false)
    (hskip : entry.skipIfNotPresent.getD false = false) :
    processGeneratedFiles fsExists baseUrl libDir (entry :: rest) =
      .error ("Required file " ++ entry.name ++
        " not found at any expected location:\n\t" ++
        joinSep "\n\t" (entry.classifiers.map (classifierPath libDir entry))) := by
  have hprobe := probeClassifiers_all_missing fsExists libDir entry entry.classifiers hmiss
  simp only [processGeneratedFiles, hprobe, hskip, Bool.false_eq_true, if_false]

set_option maxRecDepth 4000 in
/-- C3 witness: with no variant of the two-classifier spec existing, the
raised error lists both probed paths in declared order. -/
theorem c3_missing_spec_error_witness :
    processGeneratedFiles demoNoneExists "https://base" "out/libraries" [demoC2Entry] =
      .error ("Required file universal jar not found at any expected location:\n\t" ++
        classifierPath "out/libraries" demoC2Entry (some "universal") ++ "\n\t" ++
        classifierPath "out/libraries" demoC2Entry (some "client")) := by
  have h := c3_missing_spec_error demoNoneExists "https://base" "out/libraries"
    demoC2Entry [] (by decide) (by decide)
  rw [h]
  exact congrArg Except.error (by decide)

/-! ### C8: installer exit code vs structural verification -/

/-- C8: after installer invocation the pipeline aborts exactly when the
version manifest is absent at its deterministic loader-version-derived
path; the installer step itself never raises whatever the exit code (it
only logs), and on a missing manifest the cache directory removal precedes
the raised error. -/
theorem c8_installer_abort_iff (fsExists : String → Bool) (exitCode : Int)
    (neoforgeVersion outDir : String) :
    (actionsAbort (installerPhaseActions fsExists exitCode neoforgeVersion outDir) = true ↔
      fsExists (getVersionManifestPath neoforgeVersion outDir) = false) ∧
    actionsAbort (runInstallerActions exitCode) = false ∧
    (fsExists (getVersionManifestPath neoforgeVersion outDir) = false →
      installerPhaseActions fsExists exitCode neoforgeVersion outDir =
        runInstallerActions exitCode ++
          [.removeDir outDir, .raiseError "NeoForge installation failed."]) := by
  have hrun : actionsAbort (runInstallerActions exitCode) = false := by
    unfold runInstallerActions actionsAbort
    by_cases h : exitCode = 0 <;> simp [h]
  refine ⟨?_, hrun, ?_⟩
  · unfold installerPhaseActions verifyInstallerRanActions
    cases hfs : fsExists (getVersionManifestPath neoforgeVersion outDir) with
    | true =>
      simp only [if_true, List.append_nil]
      simp [hrun]
    | false =>
      simp only [Bool.false_eq_true, if_false]
      constructor
      · intro _
        trivial
      · intro _
        unfold actionsAbort
        simp [List.any_append]
  · intro hfs
    unfold installerPhaseActions verifyInstallerRanActions
    rw [hfs]
    simp

/-- C8 witness: with the manifest absent and exit code 1, the phase aborts
with the removal preceding the raise, while the installer step alone does
not abort. -/
theorem c8_installer_abort_iff_witness :
    actionsAbort (installerPhaseActions demoNoneExists 1 "20.4.237" "out") = true ∧
    actionsAbort (runInstallerActions 1) = false ∧
    installerPhaseActions demoNoneExists 1 "20.4.237" "out" =
      runInstallerActions 1 ++
        [.removeDir "out", .raiseError "NeoForge installation failed."] := by
  have h := c8_installer_abort_iff demoNoneExists 1 "20.4.237" "out"
  exact ⟨h.1.mpr rfl, h.2.1, h.2.2 rfl⟩

/-! ### C4, C5, C10: metadata inference -/

theorem getLast?_getD_cons {α : Type} (a d : α) (l : List α) :
    ((a :: l).getLast?).getD d = (l.getLast?).getD a := by
  cases l with
  | nil => rfl
  | cons b m =>
    rw [List.getLast?_cons_cons]
    rw [List.getLast?_eq_getLast_of_ne_nil (l := b :: m) (by simp)]
    rfl

theorem foldl_match_last (f : String → Option String) (lines : List String) :
    ∀ d : String,
      lines.foldl
        (fun acc ln =>
          match f ln with
          | some v => v
          | none => acc) d =
        ((lines.filterMap f).getLast?).getD d := by
  induction lines with
  | nil => intro d; rfl
  | cons ln rest ih =>
    intro d
    cases hf : f ln with
    | none =>
      simp only [List.foldl_cons, hf, List.filterMap_cons_none hf]
      exact ih d
    | some v =>
      simp only [List.foldl_cons, hf, List.filterMap_cons_some hf]
      rw [ih v, getLast?_getD_cons]

theorem inferVersion_none (d : String) : inferVersion none d = d := rfl

theorem inferVersion_some (m d : String) :
    inferVersion (some m) d =
      (((strSplitOnChar '\n' m).filterMap implementationVersionMatch).getLast?).getD d :=
  foldl_match_last implementationVersionMatch (strSplitOnChar '\n' m) d

theorem processEntry_version_of_placeholder (claritasId : Option String)
    (crudeName crudeVersion : String) (manifestMF : Option String) (entry : ModEntry)
    (hv : entry.version = JAR_VERSION_PLACEHOLDER) :
    (processEntry claritasId crudeName crudeVersion manifestMF entry).version =
      inferVersion manifestMF crudeVersion := by
  unfold processEntry
  by_cases hid : entry.modId = EXAMPLE_MOD_ID <;> simp [hid, hv]

/-- C4: for a mod entry declaring the identifier placeholder sentinel, the
resolved id is the Claritas hint when that hint is non-null and otherwise
the lowercased filename-derived token, and the display name is overwritten
with the filename-derived name, whatever the declared display text. -/
theorem c4_identity_discernment (claritasId : Option String)
    (crudeName crudeVersion : String) (manifestMF : Option String) (entry : ModEntry)
    (hid : entry.modId = EXAMPLE_MOD_ID) :
    (processEntry claritasId crudeName crudeVersion manifestMF entry).modId =
      (match claritasId with
       | some hint => hint
       | none => strToLower crudeName) ∧
    (processEntry claritasId crudeName crudeVersion manifestMF entry).displayName =
      crudeName := by
  unfold processEntry
  by_cases hv : entry.version = JAR_VERSION_PLACEHOLDER <;>
    cases claritasId <;> simp [hid, hv, discernResult]

/-- C4 witness: with a non-null hint `examplemod` the resolved id is
`examplemod` (the hint wins); with a null hint it is the lowercased
filename-derived token `coolmod`; the display name becomes the
filename-derived `Coolmod` in both cases. -/
theorem c4_identity_discernment_witness :
    (processEntry (some "examplemod") "Coolmod" "1.0" none demoModEntry).modId =
      "examplemod" ∧
    (processEntry none "Coolmod" "1.0" none demoModEntry).modId = "coolmod" ∧
    (processEntry (some "examplemod") "Coolmod" "1.0" none demoModEntry).displayName =
      "Coolmod" := by
  have h1 := c4_identity_discernment (some "examplemod") "Coolmod" "1.0" none
    demoModEntry rfl
  have h2 := c4_identity_discernment none "Coolmod" "1.0" none demoModEntry rfl
  refine ⟨h1.1, ?_, h1.2⟩
  rw [h2.1]
  decide

/-- C5: for a mod entry declaring the version placeholder sentinel, the
resolved version is the value captured by the implementation-version
pattern of the embedded build manifest (here: the single matching line);
with no readable manifest the resolution falls back to the filename-derived
version guess (the inference is total: no error escapes it). -/
theorem c5_version_placeholder (claritasId : Option String)
    (crudeName crudeVersion : String) (entry : ModEntry)
    (hv : entry.version = JAR_VERSION_PLACEHOLDER)
    (m : String) (l₁ l₂ : List String) (ln v : String)
    (hsplit : strSplitOnChar '\n' m = l₁ ++ ln :: l₂)
    (hln : implementationVersionMatch ln = some v)
    (hafter : ∀ ln' ∈ l₂, implementationVersionMatch ln' = none) :
    (processEntry claritasId crudeName crudeVersion (some m) entry).version = v ∧
    (processEntry claritasId crudeName crudeVersion none entry).version =
      crudeVersion := by
  constructor
  · rw [processEntry_version_of_placeholder claritasId crudeName crudeVersion
      (some m) entry hv, inferVersion_some, hsplit]
    rw [List.filterMap_append, List.filterMap_cons_some hln]
    rw [List.filterMap_eq_nil_iff.mpr hafter]
    rw [List.getLast?_append_cons]
    rfl
  · rw [processEntry_version_of_placeholder claritasId crudeName crudeVersion
      none entry hv]
    rfl

/-- C5 witness: declared version equal to the placeholder plus a manifest
line `Implementation-Version: 3.2.1` resolves to `3.2.1`; with no readable
manifest the filename-derived guess `1.0` is kept. -/
theorem c5_version_placeholder_witness :
    (processEntry none "Coolmod" "1.0" (some demoManifestMF) demoVersionEntry).version =
      "3.2.1" ∧
    (processEntry none "Coolmod" "1.0" none demoVersionEntry).version = "1.0" := by
  have h := c5_version_placeholder none "Coolmod" "1.0" demoVersionEntry rfl
    demoManifestMF ["Manifest-Version: 1.0"] [] "Implementation-Version: 3.2.1" "3.2.1"
    (by decide) (by decide) (by simp)
  exact h

/-- C10: when the embedded build manifest holds more than one line matching
the implementation-version pattern, the scan overwrites earlier captures,
so the resolved version is the captured value of the last matching line,
not the first. -/
theorem c10_last_match_wins (claritasId : Option String)
    (crudeName crudeVersion : String) (entry : ModEntry)
    (hv : entry.version = JAR_VERSION_PLACEHOLDER)
    (m : String) (l₁ l₂ l₃ : List String) (lnA lnB v₁ v₂ : String)
    (hsplit : strSplitOnChar '\n' m = l₁ ++ lnA :: (l₂ ++ lnB :: l₃))
    (hA : implementationVersionMatch lnA = some v₁)
    (hB : implementationVersionMatch lnB = some v₂)
    (hafter : ∀ ln ∈ l₃, implementationVersionMatch ln = none) :
    (processEntry claritasId crudeName crudeVersion (some m) entry).version = v₂ := by
  rw [processEntry_version_of_placeholder claritasId crudeName crudeVersion
    (some m) entry hv, inferVersion_some, hsplit]
  rw [List.filterMap_append, List.filterMap_cons_some hA]
  rw [List.filterMap_append, List.filterMap_cons_some hB]
  rw [List.filterMap_eq_nil_iff.mpr hafter]
  rw [List.getLast?_append_cons]
  have hshape : (v₁ :: (List.filterMap implementationVersionMatch l₂ ++ [v₂])) =
      ((v₁ :: List.filterMap implementationVersionMatch l₂) ++ v₂ :: []) := by
    simp
  rw [hshape, List.getLast?_append_cons]
  rfl

/-- C10 witness: a manifest with the two matching lines `1.1.1` then
`2.2.2` resolves the placeholder to the later capture `2.2.2`. -/
theorem c10_last_match_wins_witness :
    (processEntry none "Coolmod" "1.0" (some demoManifestMFTwo) demoVersionEntry).version =
      "2.2.2" := by
  exact c10_last_match_wins none "Coolmod" "1.0" demoVersionEntry rfl
    demoManifestMFTwo [] [] [] "Implementation-Version: 1.1.1"
    "Implementation-Version: 2.2.2" "1.1.1" "2.2.2"
    (by decide) (by decide) (by decide) (by simp)

/-! ### C9: module tree invariant -/

theorem processGeneratedFiles_shape (fsExists : String → Bool) (baseUrl libDir : String)
    (files : List GeneratedFile) :
    ∀ (ms : List Module),
      processGeneratedFiles fsExists baseUrl libDir files = .ok ms →
      ∀ m ∈ ms, ∃ entry c, m = mkGeneratedModule baseUrl entry c := by
  induction files with
  | nil =>
    intro ms h m hm
    simp only [processGeneratedFiles] at h
    cases h
    simp at hm
  | cons entry rest ih =>
    intro ms h m hm
    simp only [processGeneratedFiles] at h
    cases hpr : (probeClassifiers fsExists libDir entry entry.classifiers).2 with
    | some c =>
      rw [hpr] at h
      cases hrec : processGeneratedFiles fsExists baseUrl libDir rest with
      | ok ms' =>
        rw [hrec] at h
        simp only [] at h
        cases h
        rcases List.mem_cons.mp hm with hm | hm
        · exact ⟨entry, c, hm⟩
        · exact ih ms' hrec m hm
      | error e =>
        rw [hrec] at h
        simp only [] at h
        cases h
    | none =>
      rw [hpr] at h
      cases hskip : entry.skipIfNotPresent.getD false with
      | true =>
        rw [hskip] at h
        simp only [if_true] at h
        exact ih ms h m hm
      | false =>
        rw [hskip] at h
        simp only [Bool.false_eq_true, if_false] at h
        cases h
  
theorem processLibraries_shape (fsExists : String → Bool) (baseUrl libDir : String)
    (entries : List ManifestLibrary) :
    ∀ (ms : List Module),
      processLibraries fsExists baseUrl libDir entries = .ok ms →
      ∀ m ∈ ms, ∃ entry, m = mkLibraryModule baseUrl entry := by
  induction entries with
  | nil =>
    intro ms h m hm
    simp only [processLibraries] at h
    cases h
    simp at hm
  | cons entry rest ih =>
    intro ms h m hm
    simp only [processLibraries] at h
    by_cases hurl : entry.downloads.artifact.url = ""
    · rw [if_pos hurl] at h
      exact ih ms h m hm
    · rw [if_neg hurl] at h
      cases hfs : fsExists (pathJoin libDir entry.downloads.artifact.path) with
      | true =>
        rw [hfs] at h
        simp only [if_true] at h
        cases hrec : processLibraries fsExists baseUrl libDir rest with
        | ok ms' =>
          rw [hrec] at h
          simp only [] at h
          cases h
          rcases List.mem_cons.mp hm with hm | hm
          · exact ⟨entry, hm⟩
          · exact ih ms' hrec m hm
        | error e =>
          rw [hrec] at h
          simp only [] at h
          cases h
      | false =>
        rw [hfs] at h
        simp only [Bool.false_eq_true, if_false] at h
        cases h

theorem mkGeneratedModule_library_type (baseUrl : String) (entry : GeneratedFile)
    (c : Option String) : (mkGeneratedModule baseUrl entry c).type = .library := rfl

theorem mkLibraryModule_library_type (baseUrl : String) (entry : ManifestLibrary) :
    (mkLibraryModule baseUrl entry).type = .library := rfl

theorem countType_mkGeneratedModule_hosted (baseUrl : String) (entry : GeneratedFile)
    (c : Option String) : countType .forgeHosted (mkGeneratedModule baseUrl entry c) = 0 := rfl

theorem countType_mkGeneratedModule_manifest (baseUrl : String) (entry : GeneratedFile)
    (c : Option String) :
    countType .versionManifest (mkGeneratedModule baseUrl entry c) = 0 := rfl

theorem countType_mkLibraryModule_hosted (baseUrl : String) (entry : ManifestLibrary) :
    countType .forgeHosted (mkLibraryModule baseUrl entry) = 0 := rfl

theorem countType_mkLibraryModule_manifest (baseUrl : String) (entry : ManifestLibrary) :
    countType .versionManifest (mkLibraryModule baseUrl entry) = 0 := rfl

theorem countTypeList_zero (t : ModuleType) (l : List Module)
    (h : ∀ m ∈ l, countType t m = 0) : countTypeList t l = 0 := by
  induction l with
  | nil => rfl
  | cons m rest ih =>
    simp only [countTypeList, h m (List.mem_cons_self m rest), Nat.zero_add]
    exact ih (fun x hx => h x (List.mem_cons_of_mem m hx))

theorem countTypeList_cons (t : ModuleType) (m : Module) (l : List Module) :
    countTypeList t (m :: l) = countType t m + countTypeList t l := rfl

theorem countType_mk_some (t ty : ModuleType) (i n : String) (cp : Option Bool)
    (u : String) (subs : List Module) :
    countType t (.mk i n ty cp u (some subs)) =
      (if ty = t then 1 else 0) + countTypeList t subs := rfl

/-- C9: every successfully assembled module tree has the hosted-loader type
exactly at its root, obtained by promoting the first assembled
generated-file module (spec declaration order); the version-manifest module
is prepended as the root's first submodule, every other module of the tree
is a library, and the manifest-declared library modules follow the
generated-file modules in manifest order. -/
theorem c9_module_tree_invariant (fsExists : String → Bool) (baseUrl : String)
    (mc : MinecraftVersion) (nfv : String) (manifest : VersionManifestNeoForge)
    (outDir : String) (root : Module)
    (h : assembleModuleTree fsExists baseUrl mc nfv manifest outDir = .ok root) :
    ∃ resolved root₀ gens libs,
      substituteWildcards configuredWildcards manifest.gameArgs
          (configureGeneratedFiles mc nfv) = .ok resolved ∧
      processGeneratedFiles fsExists baseUrl (pathJoin outDir "libraries") resolved =
        .ok (root₀ :: gens) ∧
      processLibraries fsExists baseUrl (pathJoin outDir "libraries")
          manifest.libraries = .ok libs ∧
      root.id = root₀.id ∧
      root.name = root₀.name ∧
      root.type = .forgeHosted ∧
      root.subModules = some (mkVersionManifestModule nfv baseUrl :: (gens ++ libs)) ∧
      (∀ m ∈ gens ++ libs, m.type = .library) ∧
      countType .forgeHosted root = 1 ∧
      countType .versionManifest root = 1 := by
  simp only [assembleModuleTree] at h
  cases hpm : processNeoForgeModule fsExists baseUrl configuredWildcards
      (configureGeneratedFiles mc nfv) manifest.gameArgs outDir with
  | error e =>
    rw [hpm] at h
    simp only [] at h
    cases h
  | ok fm =>
    rw [hpm] at h
    simp only [] at h
    cases hpl : processLibraries fsExists baseUrl (pathJoin outDir "libraries")
        manifest.libraries with
    | error e =>
      rw [hpl] at h
      simp only [] at h
      cases h
    | ok libs =>
      rw [hpl] at h
      simp only [] at h
      injection h with hroot
      subst hroot
      simp only [processNeoForgeModule] at hpm
      cases hsub : substituteWildcards configuredWildcards manifest.gameArgs
          (configureGeneratedFiles mc nfv) with
      | error e =>
        rw [hsub] at hpm
        simp only [] at hpm
        cases hpm
      | ok resolved =>
        rw [hsub] at hpm
        simp only [] at hpm
        cases hgen : processGeneratedFiles fsExists baseUrl
            (pathJoin outDir "libraries") resolved with
        | error e =>
          rw [hgen] at hpm
          simp only [] at hpm
          cases hpm
        | ok mdls =>
          rw [hgen] at hpm
          simp only [] at hpm
          cases mdls with
          | nil =>
            simp only [promoteFirstModule] at hpm
            cases hpm
          | cons m₀ rest =>
            cases m₀ with
            | mk i n t cp u s =>
              simp only [promoteFirstModule] at hpm
              injection hpm with hfm
              subst hfm
              have hgens : ∀ m ∈ rest, ∃ entry c, m = mkGeneratedModule baseUrl entry c :=
                fun m hm => processGeneratedFiles_shape fsExists baseUrl
                  (pathJoin outDir "libraries") resolved _ hgen m
                  (List.mem_cons_of_mem _ hm)
              have hlibs : ∀ m ∈ libs, ∃ entry, m = mkLibraryModule baseUrl entry :=
                processLibraries_shape fsExists baseUrl (pathJoin outDir "libraries")
                  manifest.libraries libs hpl
              refine ⟨resolved, .mk i n t cp u s, rest, libs, rfl, hgen, rfl,
                rfl, rfl, rfl, rfl, ?_, ?_, ?_⟩
              · intro m hm
                rcases List.mem_append.mp hm with hm | hm
                · obtain ⟨e, c, rfl⟩ := hgens m hm
                  rfl
                · obtain ⟨e, rfl⟩ := hlibs m hm
                  rfl
              · have hz : countTypeList .forgeHosted (rest ++ libs) = 0 := by
                  refine countTypeList_zero _ _ (fun m hm => ?_)
                  rcases List.mem_append.mp hm with hm | hm
                  · obtain ⟨e, c, rfl⟩ := hgens m hm
                    rfl
                  · obtain ⟨e, rfl⟩ := hlibs m hm
                    rfl
                simp only [attachSubmodules, countType_mk_some]
                have hvm : countType .forgeHosted (mkVersionManifestModule nfv baseUrl) = 0 := rfl
                have hcons : countTypeList ModuleType.forgeHosted
                    (mkVersionManifestModule nfv baseUrl :: rest ++ libs) =
                  countType ModuleType.forgeHosted (mkVersionManifestModule nfv baseUrl) +
                    countTypeList ModuleType.forgeHosted (rest ++ libs) := rfl
                rw [hcons, hvm, hz]
                simp
              · have hz : countTypeList .versionManifest (rest ++ libs) = 0 := by
                  refine countTypeList_zero _ _ (fun m hm => ?_)
                  rcases List.mem_append.mp hm with hm | hm
                  · obtain ⟨e, c, rfl⟩ := hgens m hm
                    rfl
                  · obtain ⟨e, rfl⟩ := hlibs m hm
                    rfl
                simp only [attachSubmodules, countType_mk_some]
                have hvm : countType .versionManifest (mkVersionManifestModule nfv baseUrl) = 1 := rfl
                have hcons : countTypeList ModuleType.versionManifest
                    (mkVersionManifestModule nfv baseUrl :: rest ++ libs) =
                  countType ModuleType.versionManifest (mkVersionManifestModule nfv baseUrl) +
                    countTypeList ModuleType.versionManifest (rest ++ libs) := rfl
                rw [hcons, hvm, hz]
                simp

set_option maxRecDepth 8000 in
/-- C9 witness: on the all-present filesystem the concrete assembly
succeeds and its root is hosted-loader typed, unique in the tree, with the
version-manifest module as first submodule. -/
theorem c9_module_tree_invariant_witness :
    assembleModuleTree demoExistsAll "https://base" demoMc "20.4.237" demoManifest
        "out" = .ok demoRoot ∧
    demoRoot.type = .forgeHosted ∧
    countType .forgeHosted demoRoot = 1 ∧
    countType .versionManifest demoRoot = 1 ∧
    ((demoRoot.subModules.getD []).head? =
      some (mkVersionManifestModule "20.4.237" "https://base")) := by
  have hass : assembleModuleTree demoExistsAll "https://base" demoMc "20.4.237"
      demoManifest "out" = .ok demoRoot := rfl
  have h := c9_module_tree_invariant demoExistsAll "https://base" demoMc "20.4.237"
    demoManifest "out" demoRoot hass
  obtain ⟨resolved, root₀, gens, libs, hsub, hgen, hpl, hid, hname, htype, hsubm,
    hall, h1, h2⟩ := h
  refine ⟨hass, htype, h1, h2, ?_⟩
  rw [hsubm]
  rfl

end Nebula

